import Mathlib

/-!
Verification development for the `spicesupport` repository's report-table
extractor (`hspice_dc_to_csv.py`, `hspice_trans_to_csv.py`, `compare_csv.py`).

The Python code is shallowly embedded: strings are Lean `String`s processed
as `List Char`, Python floats are exact rationals `ℚ` (with a separate `nan`
marker for the not-a-number filler produced by the merger), fallible parsing
returns `Option`/`Except`.  Every definition mirrors the corresponding
Python function line by line; names follow the source where Lean permits.
-/

namespace SpiceSupport

/-- Whitespace characters recognised by Python `str.split()` / `str.strip()`. -/
def isWS (c : Char) : Bool :=
  c == ' ' || c == '\t' || c == '\n' || c == '\x0d' || c == '\x0c' || c == '\x0b'

/-- Drop leading whitespace (`str.lstrip`). -/
def dropWS (l : List Char) : List Char := l.dropWhile (fun c => isWS c)

/-- Python `str.strip()` on a character list. -/
def trimWS (l : List Char) : List Char := ((dropWS l.reverse).reverse).dropWhile (fun c => isWS c)

/-- Helper for `splitWS`: accumulates the current token (reversed). -/
def splitWSAux : List Char → List Char → List (List Char)
  | [], cur => if cur = [] then [] else [cur.reverse]
  | c :: rest, cur =>
    if isWS c then
      if cur = [] then splitWSAux rest [] else cur.reverse :: splitWSAux rest []
    else splitWSAux rest (c :: cur)

/-- Python `str.split()` with no argument: split on whitespace runs, dropping
empty tokens. -/
def splitWS (s : String) : List String := (splitWSAux s.toList []).map List.asString

/-- Python `str.strip()`. -/
def strip (s : String) : String := (trimWS s.toList).asString

/-- Python `str.lower()` (the report text is ASCII). -/
def lower (s : String) : String := (s.toList.map Char.toLower).asString

/-- Decimal digit value of a character, if it is a digit. -/
def digit? (c : Char) : Option ℕ := if c.isDigit then some (c.toNat - 48) else none

/-- Value of a big-endian digit list. -/
def digitsVal (l : List ℕ) : ℕ := l.foldl (fun a d => 10 * a + d) 0

/-- Greedily take leading decimal digits from a character list. -/
def takeDigits : List Char → List ℕ × List Char
  | [] => ([], [])
  | c :: rest =>
    match digit? c with
    | some d =>
      match takeDigits rest with
      | (ds, r) => (d :: ds, r)
    | none => ([], c :: rest)

/-- Sign handling of a decimal literal: the sign factor and the remainder. -/
def pySign : List Char → ℚ × List Char
  | '-' :: r => (-1, r)
  | '+' :: r => (1, r)
  | l => (1, l)

/-- Optional fractional part: digits after a leading decimal point. -/
def pyFrac : List Char → List ℕ × List Char
  | '.' :: r => takeDigits r
  | l => ([], l)

/-- Optional exponent part of a decimal literal (must consume the rest). -/
def pyExpo? : List Char → Option ℤ
  | [] => some 0
  | e :: r =>
    if e = 'e' ∨ e = 'E' then
      match (match r with
             | '-' :: r2 => ((-1 : ℤ), r2)
             | '+' :: r2 => (1, r2)
             | r2 => (1, r2)) with
      | (esgn, r2) =>
        match takeDigits r2 with
        | (ed, r3) => if ed = [] ∨ r3 ≠ [] then none else some (esgn * (digitsVal ed : ℤ))
    else none

/-- Model of Python `float(s)` restricted to finite decimal literals
(`[ws] [sign] digits [. digits] [(e|E) [sign] digits] [ws]`), evaluated in
exact rational arithmetic.  Invalid literals (Python `ValueError`) give
`none`. -/
def pyFloat? (l : List Char) : Option ℚ :=
  match pySign (trimWS l) with
  | (sgn, l1) =>
    match takeDigits l1 with
    | (ip, l2) =>
      match pyFrac l2 with
      | (fp, l3) =>
        if ip = [] ∧ fp = [] then none
        else
          match pyExpo? l3 with
          | some ex =>
            some (sgn * ((digitsVal ip : ℚ) + (digitsVal fp : ℚ) / 10 ^ fp.length) *
              (10 : ℚ) ^ ex)
          | none => none

/-- The HSPICE engineering-notation suffix table `SUFFIXES` from the source. -/
def SUFFIXES (c : Char) : Option ℚ :=
  if c = 'a' then some (1 / 10 ^ 18)
  else if c = 'f' then some (1 / 10 ^ 15)
  else if c = 'p' then some (1 / 10 ^ 12)
  else if c = 'n' then some (1 / 10 ^ 9)
  else if c = 'u' then some (1 / 10 ^ 6)
  else if c = 'm' then some (1 / 10 ^ 3)
  else if c = 'k' then some (10 ^ 3)
  else if c = 'x' then some (10 ^ 6)
  else if c = 'g' then some (10 ^ 9)
  else if c = 't' then some (10 ^ 12)
  else none

/-- The suffix-or-plain-float dispatch of `parse_hspice_value` (after sign
removal): `if s and s[-1] in SUFFIXES: float(s[:-1]) * SUFFIXES[s[-1]]
else: float(s)`. -/
def parseMagnitude (l : List Char) : Option ℚ :=
  match l.getLast? with
  | some c =>
    match SUFFIXES c with
    | some mag => (pyFloat? l.dropLast).map (· * mag)
    | none => pyFloat? l
  | none => pyFloat? l

/-- Embeds `parse_hspice_value` from `hspice/dcnfet/hspice_dc_to_csv.py` (identical in
`hspice/transnfet/hspice_trans_to_csv.py`): strip and lowercase the token,
empty gives "no value" (`none`), a leading `-` records a sign, a trailing
suffix letter multiplies by its magnitude, the remainder goes through
`float`.  A `ValueError` escaping `float` is also `none` (the callers catch
it and drop the row). -/
def parse_hspice_value (s : String) : Option ℚ :=
  match (trimWS s.toList).map Char.toLower with
  | [] => none
  | '-' :: r => (parseMagnitude r).map (fun v => -v)
  | l => parseMagnitude l

/-- Fact: `String.toList` inverts `List.asString` (definitional). -/
theorem toList_asString (l : List Char) : (List.asString l).toList = l := rfl

/-- Fact: the `String.data` form of `toList_asString`. -/
theorem data_asString (l : List Char) : (List.asString l).data = l := rfl

/-! Evaluation lemmas for the characters appearing in numeric tokens; used
when running the embedded code on concrete report texts. -/

theorem tl0 : Char.toLower '0' = '0' := by decide
theorem tl1 : Char.toLower '1' = '1' := by decide
theorem tl2 : Char.toLower '2' = '2' := by decide
theorem tl3 : Char.toLower '3' = '3' := by decide
theorem tl4 : Char.toLower '4' = '4' := by decide
theorem tl5 : Char.toLower '5' = '5' := by decide
theorem tl6 : Char.toLower '6' = '6' := by decide
theorem tl7 : Char.toLower '7' = '7' := by decide
theorem tl8 : Char.toLower '8' = '8' := by decide
theorem tl9 : Char.toLower '9' = '9' := by decide
theorem tlDot : Char.toLower '.' = '.' := by decide
theorem tlMinus : Char.toLower '-' = '-' := by decide
theorem tlPlus : Char.toLower '+' = '+' := by decide
theorem tlE : Char.toLower 'e' = 'e' := by decide
theorem tlN : Char.toLower 'n' = 'n' := by decide
theorem tlK : Char.toLower 'k' = 'k' := by decide
theorem dg0 : digit? '0' = some 0 := by decide
theorem dg1 : digit? '1' = some 1 := by decide
theorem dg2 : digit? '2' = some 2 := by decide
theorem dg3 : digit? '3' = some 3 := by decide
theorem dg4 : digit? '4' = some 4 := by decide
theorem dg5 : digit? '5' = some 5 := by decide
theorem dg6 : digit? '6' = some 6 := by decide
theorem dg7 : digit? '7' = some 7 := by decide
theorem dg8 : digit? '8' = some 8 := by decide
theorem dg9 : digit? '9' = some 9 := by decide
theorem dgDot : digit? '.' = none := by decide
theorem dgMinus : digit? '-' = none := by decide
theorem dgPlus : digit? '+' = none := by decide
theorem dgE : digit? 'e' = none := by decide
theorem dgN : digit? 'n' = none := by decide
theorem dgK : digit? 'k' = none := by decide

/-! ## Section scanner (`parse_hspice_dc_output` / `parse_hspice_trans_output`,
header and data-row collection phase) -/

/-- One scanned section: its derived column names and its decoded data rows. -/
structure HSection where
  columns : List String
  data : List (List ℚ)
deriving DecidableEq

/-- Header grammar of the DC converter: the regex
"^(volt(age)?|current)(\s+(volt(age)?|current))*\s*$" matched against
`line.strip().lower()`, i.e. the stripped, lowercased line splits into one
or more tokens, each `volt`, `voltage` or `current`. -/
def headerMatchDC (s : String) : Bool :=
  let toks := splitWS (lower (strip s))
  !toks.isEmpty && toks.all (fun t => t == "volt" || t == "voltage" || t == "current")

/-- Header grammar of the transient converter (also admits `time`). -/
def headerMatchTrans (s : String) : Bool :=
  let toks := splitWS (lower (strip s))
  !toks.isEmpty &&
    toks.all (fun t => t == "time" || t == "volt" || t == "voltage" || t == "current")

/-- Names a column `v(<name>)` for voltage header types, `i(<name>)` for anything else
(the `else: # current` branch of the source). -/
def typedNameDC (htype name : String) : String :=
  if lower htype = "volt" ∨ lower htype = "voltage" then "v(" ++ name ++ ")"
  else "i(" ++ name ++ ")"

/-- Column naming of the transient converter's aligned branch: a `time`
header type names the column literally `time`. -/
def typedNameTrans (htype name : String) : String :=
  if lower htype = "time" then "time"
  else if lower htype = "volt" ∨ lower htype = "voltage" then "v(" ++ name ++ ")"
  else "i(" ++ name ++ ")"

/-- One header-type/sub-header-name pairing pass: position `j` takes
sub-header token `j` when present and the placeholder `col<j+phOff>`
otherwise (`phOff` is 1 in the index-shifted branch). -/
def buildColsAux (tn : String → String → String) (subParts : List String) (phOff : ℕ) :
    ℕ → List String → List String
  | _, [] => []
  | j, h :: t =>
    tn h ((subParts.get? j).getD ("col" ++ Nat.repr (j + phOff))) ::
      buildColsAux tn subParts phOff (j + 1) t

/-- Column construction of the DC converter: when the sub-header has fewer
tokens than the header, the first header slot is the unnamed sweep column
and naming shifts by one. -/
def buildColumnsDC (headerTypes subParts : List String) : List String :=
  if subParts.length < headerTypes.length then
    "sweep" :: buildColsAux typedNameDC subParts 1 0 headerTypes.tail
  else buildColsAux typedNameDC subParts 0 0 headerTypes

/-- Column construction of the transient converter: the implicit first column
is `time`; the aligned branch maps a `time` header type to the literal
column name `time`. -/
def buildColumnsTrans (headerTypes subParts : List String) : List String :=
  if subParts.length < headerTypes.length then
    "time" :: buildColsAux typedNameDC subParts 1 0 headerTypes.tail
  else buildColsAux typedNameTrans subParts 0 0 headerTypes

/-- Embeds `data_line.lower().startswith(('y', 'x', '*', '$', '>'))`. -/
def isTerminator (d : String) : Bool :=
  match (lower d).toList.head? with
  | some c => c == 'y' || c == 'x' || c == '*' || c == '$' || c == '>'
  | none => false

/-- Boolean prefix test on character lists. -/
def isPrefixOfB : List Char → List Char → Bool
  | [], _ => true
  | _ :: _, [] => false
  | a :: as, b :: bs => a == b && isPrefixOfB as bs

/-- Boolean substring test on character lists (Python `in`). -/
def containsSeq (pat : List Char) : List Char → Bool
  | [] => isPrefixOfB pat []
  | c :: rest => isPrefixOfB pat (c :: rest) || containsSeq pat rest

/-- Embeds the Python substring test "job" in `data_line.lower()`. -/
def hasJob (d : String) : Bool := containsSeq ("job".toList) (lower d).toList

/-- Embeds the regex match "^[-\d]" on `data_line`: the stripped line starts
with a minus sign or a digit. -/
def startsDataRow (d : String) : Bool :=
  match d.toList.head? with
  | some c => c == '-' || c.isDigit
  | none => false

/-- Decode one data line: every whitespace-delimited token must decode
(`all(v is not None for v in row)`); otherwise the row is rejected. -/
def parseRow (d : String) : Option (List ℚ) :=
  (splitWS d).mapM parse_hspice_value

/-- The inner data-row loop of the scanners: skip blank lines, stop (without
consuming) at a terminator/`job`/non-numeric line, drop rows with decode
failures, collect the rest.  Returns the collected rows and the unconsumed
remainder of the line list. -/
def collectRows : List String → List (List ℚ) × List String
  | [] => ([], [])
  | line :: rest =>
    let d := strip line
    if d = "" then collectRows rest
    else if isTerminator d then ([], line :: rest)
    else if hasJob d then ([], line :: rest)
    else if !startsDataRow d then ([], line :: rest)
    else
      match parseRow d with
      | some row =>
        match collectRows rest with
        | (rs, rem) => (row :: rs, rem)
      | none => collectRows rest

/-- Fuel-indexed outer scanning loop, parameterised by the header grammar
`hm` and the column builder `bc` (the DC and transient scanners differ only
there).  On a header match the *next line is unconditionally consumed as the
sub-header*, then data rows are collected; a section is emitted only when at
least one row was collected.  The fuel only needs to exceed the number of
remaining lines (each step consumes at least one line). -/
def scanFuel (hm : String → Bool) (bc : List String → List String → List String) :
    ℕ → List String → List HSection
  | 0, _ => []
  | _ + 1, [] => []
  | fuel + 1, line :: rest =>
    if hm line then
      match rest with
      | [] => []
      | sub :: rest2 =>
        match collectRows rest2 with
        | (rows, rem) =>
          (if rows = [] then []
           else [⟨bc (splitWS line) (splitWS sub), rows⟩]) ++ scanFuel hm bc fuel rem
    else scanFuel hm bc fuel rest

/-- The section-scanning phase of `parse_hspice_dc_output`. -/
def scanSectionsDC (lines : List String) : List HSection :=
  scanFuel headerMatchDC buildColumnsDC (lines.length + 1) lines

/-- The section-scanning phase of `parse_hspice_trans_output`. -/
def scanSectionsTrans (lines : List String) : List HSection :=
  scanFuel headerMatchTrans buildColumnsTrans (lines.length + 1) lines

/-! ## Multi-section merger -/

/-- A merged-table cell: a decoded value, or the not-a-number filler produced
for unmatched keys. -/
inductive PyFloat where
  | num : ℚ → PyFloat
  | nan : PyFloat
deriving DecidableEq

/-- Python dict assignment `d[k] = v`: update in place if the key exists
(keeping its position in iteration order), else append. -/
def dictInsert (k : ℚ) (v : List ℚ) : List (ℚ × List ℚ) → List (ℚ × List ℚ)
  | [] => [(k, v)]
  | (k', v') :: rest => if k' = k then (k', v) :: rest else (k', v') :: dictInsert k v rest

/-- Builds `section_lookup`: map each row's first value to the rest of the row.
The scanners only produce nonempty rows (`collectRows_row_ne_nil`), so
`row[0]`/`row[1:]` are embedded as `headI`/`tail`. -/
def buildLookup (rows : List (List ℚ)) : List (ℚ × List ℚ) :=
  rows.foldl (fun acc row => dictInsert row.headI row.tail acc) []

/-- Exact-equality dict membership/lookup (`sweep_val in section_lookup`). -/
def lookupFind (k : ℚ) : List (ℚ × List ℚ) → Option (List ℚ)
  | [] => none
  | (k', v) :: rest => if k' = k then some v else lookupFind k rest

/-- The tolerance fallback loop: the *first* entry in dict iteration order
whose key is within `tol` of the requested key. -/
def findWithin (tol k : ℚ) : List (ℚ × List ℚ) → Option (List ℚ)
  | [] => none
  | (k', v) :: rest => if |k' - k| < tol then some v else findWithin tol k rest

/-- The per-row merge step for one primary key: exact lookup first, then the
tolerance scan, then not-a-number filler for each non-index column of the
subordinate section. -/
def mergeRow (tol : ℚ) (lookup : List (ℚ × List ℚ)) (ncols : ℕ) (key : ℚ) : List PyFloat :=
  match lookupFind key lookup with
  | some vals => vals.map PyFloat.num
  | none =>
    match findWithin tol key lookup with
    | some vals => vals.map PyFloat.num
    | none => List.replicate (ncols - 1) PyFloat.nan

/-- Embeds the loop over `enumerate(sweep_values)` that extends
`merged_data[j]` with the merge result for key `j`. -/
def extendRows (tol : ℚ) (lookup : List (ℚ × List ℚ)) (ncols : ℕ) :
    List ℚ → List (List PyFloat) → List (List PyFloat)
  | _, [] => []
  | [], rows => rows
  | sv :: svs, row :: rows =>
    (row ++ mergeRow tol lookup ncols sv) :: extendRows tol lookup ncols svs rows

/-- Merging one subordinate section into the accumulated table: append its
non-index column names and extend every row. -/
def mergeStep (tol : ℚ) (sweepVals : List ℚ) (acc : List String × List (List PyFloat))
    (sect : HSection) : List String × List (List PyFloat) :=
  (acc.1 ++ sect.columns.tail,
    extendRows tol (buildLookup sect.data) sect.columns.length sweepVals acc.2)

/-- The merge phase: the first section seeds the table, subsequent sections
are folded in with `mergeStep`. -/
def mergeSections (tol : ℚ) : List HSection → List String × List (List PyFloat)
  | [] => ([], [])
  | primary :: rest =>
    rest.foldl (mergeStep tol (primary.data.map List.headI))
      (primary.columns, primary.data.map (fun r => r.map PyFloat.num))

/-- The final cosmetic rename of the source: when the first of at least two
column names is "sweep", it is renamed to "v(sweep)". -/
def cleanupColumns : List String → List String
  | "sweep" :: c :: rest => "v(sweep)" :: c :: rest
  | cols => cols

/-- Embeds `parse_hspice_dc_output` (file reading dropped: the argument is the list of
lines of the report).  Voltage-sweep merge tolerance `1e-12`. -/
def parse_hspice_dc_output (lines : List String) :
    Except String (List String × List (List PyFloat)) :=
  match scanSectionsDC lines with
  | [] => Except.error ("Could not find any data sections in HSPICE output")
  | primary :: rest =>
    let m := mergeSections (1 / 10 ^ 12) (primary :: rest)
    Except.ok (cleanupColumns m.1, m.2)

/-- Embeds `parse_hspice_trans_output`: time-keyed merge tolerance `1e-15`, and no
column clean-up step. -/
def parse_hspice_trans_output (lines : List String) :
    Except String (List String × List (List PyFloat)) :=
  match scanSectionsTrans lines with
  | [] => Except.error ("Could not find any data sections in HSPICE output")
  | primary :: rest => Except.ok (mergeSections (1 / 10 ^ 15) (primary :: rest))


/-! ## Table serializer (`write_csv` of `hspice/dcnfet/hspice_dc_to_csv.py`)
and plain-table loader (`load_csv` of `ngspice/compare_csv.py`) -/

/-- Number of decimal digits of `n` (via its decimal representation). -/
def natLen (n : ℕ) : ℕ := (Nat.repr n).length

/-- Decimal exponent `e` with `10 ^ e ≤ a < 10 ^ (e + 1)` for `a > 0`: the
digit-length difference of numerator and denominator, corrected by one. -/
def decExp (a : ℚ) : ℤ :=
  let e0 : ℤ := (natLen a.num.toNat : ℤ) - (natLen a.den : ℤ)
  if (10 : ℚ) ^ e0 ≤ a then e0 else e0 - 1

/-- Exponent field of `%.10e`: sign and a two-digit zero-padded magnitude. -/
def padExp (e : ℤ) : String :=
  (if e < 0 then "-" else "+") ++
    (if e.natAbs < 10 then "0" ++ Nat.repr e.natAbs else Nat.repr e.natAbs)

/-- Mantissa field of `%.10e` from the rounded 11-digit significand. -/
def mantStr (scaled : ℕ) : String :=
  match (Nat.repr scaled).toList with
  | [] => ""
  | d :: ds => (d :: '.' :: ds).asString

/-- Model of the Python float format .10e (the f-string used by `write_csv`)
in exact rational arithmetic: sign, 11 rounded significant digits, and a signed
two-digit exponent (round half up; a rounding overflow carries into the
exponent).  Python formats the binary double and resolves exact ties to
even, which agrees with this model on every value considered here.
Not-a-number filler prints as `nan`. -/
def fmt10e (v : PyFloat) : String :=
  match v with
  | PyFloat.nan => "nan"
  | PyFloat.num q =>
    if q = 0 then "0.0000000000e+00"
    else
      let a := |q|
      let e := decExp a
      let scaled := (⌊a * (10 : ℚ) ^ ((10 : ℤ) - e) + 1 / 2⌋).toNat
      let ec := if scaled = 10 ^ 11 then e + 1 else e
      let sc := if scaled = 10 ^ 11 then 10 ^ 10 else scaled
      (if q < 0 then "-" else "") ++ mantStr sc ++ "e" ++ padExp ec

/-- Embeds `write_csv` of the DC/transient converters: one comma-joined header line,
then one comma-joined `%.10e` line per data row (returned as the list of
written lines). -/
def write_csv (columns : List String) (data : List (List PyFloat)) : List String :=
  String.intercalate (",") columns ::
    data.map (fun row => String.intercalate (",") (row.map fmt10e))

/-- Embeds `line.strip().startswith('#')`. -/
def startsHash (d : String) : Bool :=
  match d.toList.head? with
  | some c => c == '#'
  | none => false

/-- Embeds the regex match "^[-\d.]" of `load_csv`: minus sign, digit, or
decimal point. -/
def startsNumDot (d : String) : Bool :=
  match d.toList.head? with
  | some c => c == '-' || c == '.' || c.isDigit
  | none => false

/-- Embeds `h.replace('-', '_')`. -/
def replaceDash (s : String) : String :=
  (s.toList.map (fun c => if c = '-' then '_' else c)).asString

/-- Python dict write `seen[k] = v` for the duplicate-column counter. -/
def seenUpd (k : String) (v : ℕ) : List (String × ℕ) → List (String × ℕ)
  | [] => [(k, v)]
  | (k', v') :: rest => if k' = k then (k', v) :: rest else (k', v') :: seenUpd k v rest

/-- Duplicate-column renaming of `load_csv`: a repeated name `h` becomes
`h_<count>`. -/
def dedupe : List String → List (String × ℕ) → List String
  | [], _ => []
  | h :: t, seen =>
    match seen.lookup h with
    | some n => (h ++ "_" ++ Nat.repr (n + 1)) :: dedupe t (seenUpd h (n + 1) seen)
    | none => h :: dedupe t (seenUpd h 0 seen)

/-- Index of the first nonblank, non-`#` line (`header_idx`; 0 when no line
qualifies, as in the source's loop default). -/
def findHdrAux : List String → ℕ → Option ℕ
  | [], _ => none
  | l :: t, i =>
    if strip l ≠ "" ∧ ¬ startsHash (strip l) then some i else findHdrAux t (i + 1)

/-- Embeds `load_csv` of `ngspice/compare_csv.py`, up to the construction of the
numpy record array (which just repackages `header` and `data_lines`): the
header line is split on whitespace (with `-` replaced and duplicates
renamed), and each subsequent numeric-looking line contributes a row when
every whitespace token passes `float` (a `ValueError` skips the row). -/
def load_csv (lines : List String) : List String × List (List ℚ) :=
  let hi := (findHdrAux lines 0).getD 0
  let hdr := dedupe ((splitWS (lines.getD hi (""))).map replaceDash) []
  (hdr,
    (lines.drop (hi + 1)).filterMap (fun line =>
      let d := strip line
      if d ≠ "" ∧ ¬ startsHash d ∧ startsNumDot d then
        (splitWS d).mapM (fun t => pyFloat? t.toList)
      else none))


/-! ## Helper lemmas about the merger -/

/-- Extending rows never changes the row count. -/
theorem extendRows_length (tol : ℚ) (lk : List (ℚ × List ℚ)) (n : ℕ) :
    ∀ (svs : List ℚ) (rows : List (List PyFloat)),
      (extendRows tol lk n svs rows).length = rows.length := by
  intro svs
  induction svs with
  | nil => intro rows; cases rows <;> simp [extendRows]
  | cons sv svs ih =>
    intro rows
    cases rows with
    | nil => simp [extendRows]
    | cons row rows => simp [extendRows, ih]

/-- Each surviving row of `extendRows` is the original row with some suffix
appended. -/
theorem extendRows_getElem (tol : ℚ) (lk : List (ℚ × List ℚ)) (n : ℕ) :
    ∀ (svs : List ℚ) (rows : List (List PyFloat)) (j : ℕ) (row : List PyFloat),
      rows[j]? = some row →
      ∃ ext, (extendRows tol lk n svs rows)[j]? = some (row ++ ext) := by
  intro svs
  induction svs with
  | nil =>
    intro rows j row hj
    cases rows with
    | nil => simp at hj
    | cons r rs => exact ⟨[], by simpa [extendRows] using hj⟩
  | cons sv svs ih =>
    intro rows j row hj
    cases rows with
    | nil => simp at hj
    | cons r rs =>
      cases j with
      | zero =>
        simp only [List.getElem?_cons_zero, Option.some.injEq] at hj
        exact ⟨mergeRow tol lk n sv, by simp [extendRows, hj]⟩
      | succ j =>
        simp only [List.getElem?_cons_succ] at hj
        obtain ⟨ext, hext⟩ := ih rs j row hj
        exact ⟨ext, by simpa [extendRows] using hext⟩

/-- When the sweep list covers the rows, every output row of `extendRows` is
an input row extended by one `mergeRow` result. -/
theorem extendRows_mem (tol : ℚ) (lk : List (ℚ × List ℚ)) (n : ℕ) :
    ∀ (svs : List ℚ) (rows : List (List PyFloat)), svs.length = rows.length →
      ∀ r' ∈ extendRows tol lk n svs rows,
        ∃ r ∈ rows, ∃ sv, r' = r ++ mergeRow tol lk n sv := by
  intro svs
  induction svs with
  | nil =>
    intro rows hl r' hr'
    cases rows with
    | nil => simp [extendRows] at hr'
    | cons r rs => simp at hl
  | cons sv svs ih =>
    intro rows hl r' hr'
    cases rows with
    | nil => simp [extendRows] at hr'
    | cons r rs =>
      simp only [extendRows, List.mem_cons] at hr'
      rcases hr' with h | h
      · exact ⟨r, by simp, sv, h⟩
      · obtain ⟨r0, hr0, sv0, h0⟩ := ih rs (by simpa using hl) r' h
        exact ⟨r0, by simp [hr0], sv0, h0⟩

/-- No exact match when no key equals the probe. -/
theorem lookupFind_eq_none (key : ℚ) :
    ∀ lk : List (ℚ × List ℚ), (∀ p ∈ lk, p.1 ≠ key) → lookupFind key lk = none := by
  intro lk
  induction lk with
  | nil => intro; rfl
  | cons p rest ih =>
    intro h
    obtain ⟨k', v⟩ := p
    have hk : k' ≠ key := h (k', v) (by simp)
    simp only [lookupFind, if_neg hk]
    exact ih fun q hq => h q (by simp [hq])

/-- No tolerance match when every key is outside the tolerance. -/
theorem findWithin_eq_none (tol key : ℚ) :
    ∀ lk : List (ℚ × List ℚ), (∀ p ∈ lk, ¬ |p.1 - key| < tol) → findWithin tol key lk = none := by
  intro lk
  induction lk with
  | nil => intro; rfl
  | cons p rest ih =>
    intro h
    obtain ⟨k', v⟩ := p
    have hk : ¬ |k' - key| < tol := h (k', v) (by simp)
    simp only [findWithin, if_neg hk]
    exact ih fun q hq => h q (by simp [hq])

/-- The tolerance scan returns the first in-tolerance entry in iteration
order. -/
theorem findWithin_first (tol key : ℚ) (k : ℚ) (vals : List ℚ) (post : List (ℚ × List ℚ)) :
    ∀ pre : List (ℚ × List ℚ), (∀ p ∈ pre, ¬ |p.1 - key| < tol) → |k - key| < tol →
      findWithin tol key (pre ++ (k, vals) :: post) = some vals := by
  intro pre
  induction pre with
  | nil => intro _ hk; simp [findWithin, hk]
  | cons p rest ih =>
    intro h hk
    obtain ⟨k', v⟩ := p
    have hp : ¬ |k' - key| < tol := h (k', v) (by simp)
    simp only [List.cons_append, findWithin, if_neg hp]
    exact ih (fun q hq => h q (by simp [hq])) hk


/-- Invariant form of `List.foldlRecOn` with an explicit predicate. -/
theorem foldl_invariant {α β : Type} (P : β → Prop) (op : β → α → β) (l : List α) (b : β)
    (hb : P b) (hstep : ∀ acc, P acc → ∀ a ∈ l, P (op acc a)) : P (l.foldl op b) :=
  List.foldlRecOn l op b hb fun acc hacc a ha => hstep acc hacc a ha

/-- The merged table always has exactly the primary section's row count. -/
theorem mergeSections_snd_length (tol : ℚ) (primary : HSection) (rest : List HSection) :
    (mergeSections tol (primary :: rest)).2.length = primary.data.length := by
  unfold mergeSections
  refine foldl_invariant (fun acc => acc.2.length = primary.data.length)
    (mergeStep tol (primary.data.map List.headI)) rest
    (primary.columns, primary.data.map (fun r => r.map PyFloat.num))
    (by exact List.length_map _ _) ?_
  intro acc hacc sect hsect
  simpa [mergeStep, extendRows_length] using hacc

/-! ## Claim C1 -/

/-- C1 (counterexample): with primary key `1.0` and subordinate keys
`1.0000000000005` (value 7, first in section order) and `1.0000000000001`
(value 8, strictly closer), both within the `1e-12` tolerance, the merger
appends the value of the *first* in-tolerance key (7), not of the closest
key (8), so the claim's "values of the closest such key are appended" is
false on this report. -/
theorem c1_not_closest_cex :
    parse_hspice_dc_output
        [("volt current"), ("ng vd"), ("1.0 1.0e-9"),
         ("volt current"), ("vs"), ("1.0000000000005 7.0"), ("1.0000000000001 8.0")] =
      Except.ok ([("v(ng)"), ("i(vd)"), ("i(vs)")],
        [[PyFloat.num 1, PyFloat.num (1 / 10 ^ 9), PyFloat.num 7]]) ∧
    |(1 + 1 / 10 ^ 13 : ℚ) - 1| < |(1 + 5 / 10 ^ 13 : ℚ) - 1| ∧
    (7 : ℚ) ≠ 8 := by
  refine ⟨?_, ?_, by norm_num⟩
  swap
  · rw [show ((1 : ℚ) + 1 / 10 ^ 13) - 1 = 1 / 10 ^ 13 by ring,
      show ((1 : ℚ) + 5 / 10 ^ 13) - 1 = 5 / 10 ^ 13 by ring,
      abs_of_pos (by norm_num), abs_of_pos (by norm_num)]
    norm_num
  simp +decide [parse_hspice_dc_output, scanSectionsDC, scanFuel, collectRows, parseRow,
    List.mapM, List.mapM.loop, splitWS, splitWSAux, strip, buildColumnsDC, buildColsAux,
    typedNameDC, parse_hspice_value, parseMagnitude, pyFloat?, pySign, pyFrac, pyExpo?,
    SUFFIXES, trimWS, dropWS, isWS, takeDigits, digitsVal, List.getLast?, List.dropLast,
    data_asString, toList_asString, List.foldl, cleanupColumns, mergeSections, mergeStep,
    extendRows, mergeRow, lookupFind, findWithin, buildLookup, dictInsert, List.headI,
    tl0, tl1, tl2, tl3, tl4, tl5, tl6, tl7, tl8, tl9, tlDot, tlMinus, tlPlus, tlE, tlN, tlK,
    dg0, dg1, dg2, dg3, dg4, dg5, dg6, dg7, dg8, dg9, dgDot, dgMinus, dgPlus, dgE, dgN, dgK]
  norm_num [mergeRow, lookupFind, findWithin, abs_of_pos, abs_of_nonneg]

/-- C1 (amended): for a primary key with no exact match in the subordinate
lookup but at least one key within the absolute tolerance, the merger
appends the values of the *first* in-tolerance entry in the lookup's
iteration order (not necessarily the closest), and generates no
not-a-number filler for that row.  This holds for any tolerance, in
particular the DC converter's `1e-12` and the transient converter's
`1e-15`. -/
theorem c1_first_within_tolerance (tol : ℚ) (lk : List (ℚ × List ℚ)) (n : ℕ) (key : ℚ)
    (pre : List (ℚ × List ℚ)) (k : ℚ) (vals : List ℚ) (post : List (ℚ × List ℚ))
    (hsplit : lk = pre ++ (k, vals) :: post)
    (hnoexact : ∀ p ∈ lk, p.1 ≠ key)
    (hpre : ∀ p ∈ pre, ¬ |p.1 - key| < tol)
    (hk : |k - key| < tol) :
    mergeRow tol lk n key = vals.map PyFloat.num ∧ PyFloat.nan ∉ mergeRow tol lk n key := by
  have hmain : mergeRow tol lk n key = vals.map PyFloat.num := by
    unfold mergeRow
    rw [lookupFind_eq_none key lk hnoexact, hsplit, findWithin_first tol key k vals post pre hpre hk]
  refine ⟨hmain, ?_⟩
  rw [hmain]
  simp

/-- C1 (witness): a concrete application at both tolerances. -/
theorem c1_first_within_tolerance_wit :
    mergeRow (1 / 10 ^ 12) [(1 + 5 / 10 ^ 13, [7]), (1 + 1 / 10 ^ 13, [8])] 2 1 =
        [PyFloat.num 7] ∧
    mergeRow (1 / 10 ^ 15) [(1 + 5 / 10 ^ 16, [7])] 2 1 = [PyFloat.num 7] := by
  constructor
  · exact (c1_first_within_tolerance (1 / 10 ^ 12)
      [(1 + 5 / 10 ^ 13, [7]), (1 + 1 / 10 ^ 13, [8])] 2 1
      [] (1 + 5 / 10 ^ 13) [7] [(1 + 1 / 10 ^ 13, [8])] rfl
      (by intro p hp; rcases List.mem_cons.mp hp with h | h
          · subst h; norm_num
          · rcases List.mem_cons.mp h with h | h
            · subst h; norm_num
            · simp at h)
      (by intro p hp; simp at hp)
      (by rw [abs_sub_lt_iff]; constructor <;> norm_num)).1
  · exact (c1_first_within_tolerance (1 / 10 ^ 15) [(1 + 5 / 10 ^ 16, [7])] 2 1
      [] (1 + 5 / 10 ^ 16) [7] [] rfl
      (by intro p hp; rcases List.mem_cons.mp hp with h | h
          · subst h; norm_num
          · simp at h)
      (by intro p hp; simp at hp)
      (by rw [abs_sub_lt_iff]; constructor <;> norm_num)).1

/-! ## Claim C2 -/

/-- C2: (a) merging never drops or adds a row: the merged table has exactly
the primary section's row count, whatever the subordinate sections hold;
(b) a primary key with no exact and no in-tolerance match is padded with
exactly one not-a-number cell per non-index column of the subordinate
section; (c) at the extractor level, a successful parse returns exactly as
many rows as the first scanned section has data rows. -/
theorem c2_row_count_and_nan_fill :
    (∀ (tol : ℚ) (primary : HSection) (rest : List HSection),
      (mergeSections tol (primary :: rest)).2.length = primary.data.length) ∧
    (∀ (tol : ℚ) (lk : List (ℚ × List ℚ)) (n : ℕ) (key : ℚ),
      (∀ p ∈ lk, p.1 ≠ key) → (∀ p ∈ lk, ¬ |p.1 - key| < tol) →
      mergeRow tol lk n key = List.replicate (n - 1) PyFloat.nan) ∧
    (∀ (lines : List String) (cols : List String) (rows : List (List PyFloat))
        (primary : HSection) (rest : List HSection),
      parse_hspice_dc_output lines = Except.ok (cols, rows) →
      scanSectionsDC lines = primary :: rest →
      rows.length = primary.data.length) := by
  refine ⟨mergeSections_snd_length, ?_, ?_⟩
  · intro tol lk n key hne htol
    unfold mergeRow
    rw [lookupFind_eq_none key lk hne, findWithin_eq_none tol key lk htol]
  · intro lines cols rows primary rest hok hscan
    rw [parse_hspice_dc_output, hscan] at hok
    have hrows : rows = (mergeSections (1 / 10 ^ 12) (primary :: rest)).2 := by
      have := (Except.ok.injEq _ _).mp hok
      exact (Prod.mk.injEq _ _ _ _).mp this.symm |>.2
    rw [hrows, mergeSections_snd_length]

/-- C2 (witness): concrete applications of all three parts. -/
theorem c2_row_count_and_nan_fill_wit :
    (mergeSections 1 [⟨[("a")], [[1]]⟩]).2.length = 1 ∧
    mergeRow (1 / 10 ^ 12) [(0, [5])] 3 10 = [PyFloat.nan, PyFloat.nan] := by
  constructor
  · exact c2_row_count_and_nan_fill.1 1 ⟨[("a")], [[1]]⟩ []
  · have h := c2_row_count_and_nan_fill.2.1 (1 / 10 ^ 12) [(0, [5])] 3 10
      (by intro p hp
          rcases List.mem_cons.mp hp with h | h
          · subst h; norm_num
          · simp at h)
      (by intro p hp
          rcases List.mem_cons.mp hp with h | h
          · subst h; rw [abs_sub_lt_iff]; norm_num
          · simp at h)
    rw [h]
    rfl


/-! ## Claim C10 -/

/-- C10: merging only appends.  (a) The merged column list starts with the
primary section's column list unchanged; (b) merged row `j` starts with
exactly the values of primary row `j`, in order, with some appended suffix;
(c) the final clean-up renames at most the leading column: tail and length
are untouched.  Both converters' mergers are the same `mergeSections` (at
tolerances `1e-12` / `1e-15`), so this covers the DC and transient paths. -/
theorem c10_primary_preserved :
    (∀ (tol : ℚ) (primary : HSection) (rest : List HSection),
      (mergeSections tol (primary :: rest)).1.take primary.columns.length = primary.columns) ∧
    (∀ (tol : ℚ) (primary : HSection) (rest : List HSection) (j : ℕ) (r0 : List ℚ),
      primary.data[j]? = some r0 →
      ∃ ext, (mergeSections tol (primary :: rest)).2[j]? = some (r0.map PyFloat.num ++ ext)) ∧
    (∀ cs : List String,
      (cleanupColumns cs).tail = cs.tail ∧ (cleanupColumns cs).length = cs.length) := by
  refine ⟨?_, ?_, ?_⟩
  · intro tol primary rest
    unfold mergeSections
    refine foldl_invariant (fun acc => acc.1.take primary.columns.length = primary.columns)
      (mergeStep tol (primary.data.map List.headI)) rest
      (primary.columns, primary.data.map (fun r => r.map PyFloat.num))
      (by exact List.take_length primary.columns) ?_
    intro acc hacc sect hsect
    have hle : primary.columns.length ≤ acc.1.length := by
      have h1 : (acc.1.take primary.columns.length).length = primary.columns.length := by
        rw [hacc]
      simpa using h1.symm.le.trans (by simp [List.length_take])
    show (acc.1 ++ sect.columns.tail).take primary.columns.length = primary.columns
    rw [List.take_append_of_le_length hle, hacc]
  · intro tol primary rest
    unfold mergeSections
    refine foldl_invariant
      (fun acc => ∀ (j : ℕ) (r0 : List ℚ), primary.data[j]? = some r0 →
        ∃ ext, acc.2[j]? = some (r0.map PyFloat.num ++ ext))
      (mergeStep tol (primary.data.map List.headI)) rest
      (primary.columns, primary.data.map (fun r => r.map PyFloat.num)) ?_ ?_
    · intro j r0 hj
      refine ⟨[], ?_⟩
      rw [List.append_nil]
      show (primary.data.map (fun r => r.map PyFloat.num))[j]? = some (r0.map PyFloat.num)
      rw [List.getElem?_map, hj]
      rfl
    · intro acc hacc sect hsect j r0 hj
      obtain ⟨ext, hext⟩ := hacc j r0 hj
      obtain ⟨e2, he2⟩ := extendRows_getElem tol (buildLookup sect.data) sect.columns.length
        (primary.data.map List.headI) acc.2 j _ hext
      exact ⟨ext ++ e2, by simpa [mergeStep, List.append_assoc] using he2⟩
  · intro cs
    unfold cleanupColumns
    split <;> simp

/-- C10 (witness): concrete applications of each part. -/
theorem c10_primary_preserved_wit :
    (mergeSections 1 [⟨[("a"), ("b")], [[1, 2]]⟩, ⟨[("c"), ("d")], [[1, 9]]⟩]).1.take 2 =
        [("a"), ("b")] ∧
    ((mergeSections 1 [⟨[("a"), ("b")], [[1, 2]]⟩, ⟨[("c"), ("d")], [[1, 9]]⟩]).2[0]?).isSome =
        true ∧
    (cleanupColumns [("sweep"), ("x")]).tail = [("x")] := by
  refine ⟨?_, ?_, ?_⟩
  · exact c10_primary_preserved.1 1 ⟨[("a"), ("b")], [[1, 2]]⟩ [⟨[("c"), ("d")], [[1, 9]]⟩]
  · obtain ⟨ext, hext⟩ := c10_primary_preserved.2.1 1 ⟨[("a"), ("b")], [[1, 2]]⟩
      [⟨[("c"), ("d")], [[1, 9]]⟩] 0 [1, 2] rfl
    rw [hext]
    rfl
  · exact (c10_primary_preserved.2.2 [("sweep"), ("x")]).1


/-! ## Helper lemmas about the scanner -/

/-- The data-row loop only consumes lines: the remainder never grows. -/
theorem collectRows_rem_le : ∀ l : List String, (collectRows l).2.length ≤ l.length := by
  intro l
  induction l with
  | nil => simp [collectRows]
  | cons line rest ih =>
    unfold collectRows
    by_cases h1 : strip line = ""
    · rw [if_pos h1]
      exact ih.trans (Nat.le_succ _)
    · rw [if_neg h1]
      by_cases h2 : isTerminator (strip line) = true
      · rw [if_pos h2]
      · rw [if_neg h2]
        by_cases h3 : hasJob (strip line) = true
        · rw [if_pos h3]
        · rw [if_neg h3]
          by_cases h4 : (!startsDataRow (strip line)) = true
          · rw [if_pos h4]
          · rw [if_neg h4]
            rcases hp : parseRow (strip line) with _ | row
            · exact ih.trans (Nat.le_succ _)
            · rcases hcr : collectRows rest with ⟨rs, rem⟩
              have : rem.length ≤ rest.length := by
                have h := ih; rw [hcr] at h; exact h
              simpa using this.trans (Nat.le_succ _)

/-- One-step unfolding of the scanner loop (definitional). -/
theorem scanFuel_succ_cons (hm : String → Bool) (bc : List String → List String → List String)
    (fuel : ℕ) (line : String) (rest : List String) :
    scanFuel hm bc (fuel + 1) (line :: rest) =
      if hm line then
        (match rest with
         | [] => []
         | sub :: rest2 =>
           (if (collectRows rest2).1 = [] then []
            else [⟨bc (splitWS line) (splitWS sub), (collectRows rest2).1⟩]) ++
             scanFuel hm bc fuel (collectRows rest2).2)
      else scanFuel hm bc fuel rest := rfl

/-- Scanning does not depend on the fuel once it exceeds the line count. -/
theorem scanFuel_congr (hm : String → Bool) (bc : List String → List String → List String) :
    ∀ (f g : ℕ) (l : List String), l.length < f → l.length < g →
      scanFuel hm bc f l = scanFuel hm bc g l := by
  intro f
  induction f with
  | zero => intro g l hf; exact absurd hf (Nat.not_lt_zero _)
  | succ f ih =>
    intro g l hf hg
    cases g with
    | zero => exact absurd hg (Nat.not_lt_zero _)
    | succ g =>
      cases l with
      | nil => rfl
      | cons line rest =>
        unfold scanFuel
        by_cases hline : hm line = true
        · rw [if_pos hline, if_pos hline]
          cases rest with
          | nil => rfl
          | cons sub rest2 =>
            dsimp only
            rcases hcr : collectRows rest2 with ⟨rows, rem⟩
            have hrem : rem.length ≤ rest2.length := by
              have h := collectRows_rem_le rest2; rw [hcr] at h; exact h
            have h1 : rem.length < f := by
              simp only [List.length_cons] at hf; omega
            have h2 : rem.length < g := by
              simp only [List.length_cons] at hg; omega
            dsimp only
            rw [ih g rem h1 h2]
        · rw [if_neg hline, if_neg hline]
          refine ih g rest ?_ ?_ <;> simp only [List.length_cons] at hf hg <;> omega

/-- With no header line anywhere, no section is ever produced. -/
theorem scanFuel_eq_nil_of_no_header (hm : String → Bool)
    (bc : List String → List String → List String) :
    ∀ (f : ℕ) (l : List String), (∀ x ∈ l, hm x = false) → scanFuel hm bc f l = [] := by
  intro f
  induction f with
  | zero => intro l h; rfl
  | succ f ih =>
    intro l h
    cases l with
    | nil => rfl
    | cons line rest =>
      have hline : hm line = false := h line (by simp)
      unfold scanFuel
      rw [if_neg (by simp [hline])]
      exact ih rest fun x hx => h x (by simp [hx])

/-- Every emitted section carries at least one data row. -/
theorem scanFuel_data_ne_nil (hm : String → Bool)
    (bc : List String → List String → List String) :
    ∀ (f : ℕ) (l : List String) (s : HSection), s ∈ scanFuel hm bc f l → s.data ≠ [] := by
  intro f
  induction f with
  | zero => intro l s hs; simp [scanFuel] at hs
  | succ f ih =>
    intro l s hs
    cases l with
    | nil => simp [scanFuel] at hs
    | cons line rest =>
      unfold scanFuel at hs
      by_cases hline : hm line = true
      · rw [if_pos hline] at hs
        cases rest with
        | nil => simp at hs
        | cons sub rest2 =>
          dsimp only at hs
          rcases hcr : collectRows rest2 with ⟨rows, rem⟩
          rw [hcr] at hs
          rcases List.mem_append.mp hs with h | h
          · by_cases hrows : rows = []
            · rw [if_pos hrows] at h; simp at h
            · rw [if_neg hrows] at h
              have : s = ⟨bc (splitWS line) (splitWS sub), rows⟩ := by simpa using h
              rw [this]
              exact hrows
          · exact ih rem s h
      · rw [if_neg hline] at hs
        exact ih rest s hs

/-- A row with any failed token yields `none` for the whole row decode. -/
theorem mapM_eq_none {α β : Type} (f : α → Option β) :
    ∀ (l : List α) (a : α), a ∈ l → f a = none → l.mapM f = none := by
  intro l
  induction l with
  | nil => intro a ha; simp at ha
  | cons x xs ih =>
    intro a ha hf
    rcases List.mem_cons.mp ha with h | h
    · subst h
      rw [List.mapM_cons, hf]
      rfl
    · have hxs := ih a h hf
      rw [List.mapM_cons, hxs]
      cases hfx : f x <;> rfl


/-! ## Claim C3 -/

/-- C3 (counterexample): in the DC converter, a matched header (`volt
current`) immediately followed by the data-looking line `0.0 1.0` does *not*
fall back to `col<N>` placeholders: the data-looking line is consumed as the
name sub-header (the columns become `v(0.0)` and `i(1.0)`) and is lost as
data — only the following line survives as a row, contradicting the claim on
this report. -/
theorem c3_subheader_cex :
    parse_hspice_dc_output [("volt current"), ("0.0 1.0"), ("1.0 2.0")] =
      Except.ok ([("v(0.0)"), ("i(1.0)")], [[PyFloat.num 1, PyFloat.num 2]]) ∧
    ("col0") ∉ [("v(0.0)"), ("i(1.0)")] ∧
    ([[PyFloat.num 1, PyFloat.num 2]] : List (List PyFloat)).length = 1 := by
  refine ⟨?_, by decide, rfl⟩
  simp +decide [parse_hspice_dc_output, scanSectionsDC, scanFuel, collectRows, parseRow,
    List.mapM, List.mapM.loop, splitWS, splitWSAux, strip, buildColumnsDC, buildColsAux,
    typedNameDC, parse_hspice_value, parseMagnitude, pyFloat?, pySign, pyFrac, pyExpo?,
    SUFFIXES, trimWS, dropWS, isWS, takeDigits, digitsVal, List.getLast?, List.dropLast,
    data_asString, toList_asString, List.foldl, cleanupColumns, mergeSections, mergeStep,
    extendRows, mergeRow, lookupFind, findWithin, buildLookup, dictInsert, List.headI,
    tl0, tl1, tl2, tl3, tl4, tl5, tl6, tl7, tl8, tl9, tlDot, tlMinus, tlPlus, tlE, tlN, tlK,
    dg0, dg1, dg2, dg3, dg4, dg5, dg6, dg7, dg8, dg9, dgDot, dgMinus, dgPlus, dgE, dgN, dgK]

/-- C3 (amended): the DC scanner *unconditionally* consumes the line after a
matched header as the name sub-header — even a line that looks like a data
row (starts with a digit, sign, or point).  Column names are built from that
line's tokens, and data collection starts only at the line after it, so such
a line is lost as data.  (Only the `hspicecompat/gatesweep` variant checks
the sub-header's shape, and it falls back to a hardcoded default name list,
not to `col<N>` placeholders.) -/
theorem c3_subheader_always_consumed (h d : String) (rest : List String)
    (hh : headerMatchDC h = true) (_hd : startsDataRow (strip d) = true) :
    scanSectionsDC (h :: d :: rest) =
      (if (collectRows rest).1 = [] then []
       else [⟨buildColumnsDC (splitWS h) (splitWS d), (collectRows rest).1⟩]) ++
        scanSectionsDC (collectRows rest).2 := by
  unfold scanSectionsDC
  rw [show (h :: d :: rest).length + 1 = (rest.length + 2) + 1 by simp]
  rw [scanFuel_succ_cons, if_pos hh]
  dsimp only
  congr 1
  exact scanFuel_congr headerMatchDC buildColumnsDC (rest.length + 1 + 1) _ _
    (by have := collectRows_rem_le rest; omega) (by omega)

/-- C3 (witness): concrete application of the amended description. -/
theorem c3_subheader_always_consumed_wit :
    scanSectionsDC [("volt current"), ("0.0 1.0"), ("1.0 2.0")] =
      (if (collectRows [("1.0 2.0")]).1 = [] then []
       else [⟨buildColumnsDC (splitWS ("volt current")) (splitWS ("0.0 1.0")),
         (collectRows [("1.0 2.0")]).1⟩]) ++
        scanSectionsDC (collectRows [("1.0 2.0")]).2 :=
  c3_subheader_always_consumed ("volt current") ("0.0 1.0") [("1.0 2.0")]
    (by decide) (by decide)

/-! ## Claim C5 -/

/-- C5: the extractor fails with the terminal "no data sections" error both
when no line matches the header grammar and when headers match but no valid
data rows follow anywhere (concrete instance: header, sub-header, then a
terminator); and a successful extraction never returns an empty row list. -/
theorem c5_no_data_error :
    (∀ lines : List String, (∀ x ∈ lines, headerMatchDC x = false) →
      parse_hspice_dc_output lines =
        Except.error ("Could not find any data sections in HSPICE output")) ∧
    (∀ (lines cols : List String) (rows : List (List PyFloat)),
      parse_hspice_dc_output lines = Except.ok (cols, rows) → rows ≠ []) ∧
    parse_hspice_dc_output [("volt current"), ("ng vd"), ("y")] =
      Except.error ("Could not find any data sections in HSPICE output") := by
  refine ⟨?_, ?_, ?_⟩
  · intro lines h
    unfold parse_hspice_dc_output scanSectionsDC
    rw [scanFuel_eq_nil_of_no_header headerMatchDC buildColumnsDC (lines.length + 1) lines h]
  · intro lines cols rows hok
    cases hscan : scanSectionsDC lines with
    | nil =>
      rw [parse_hspice_dc_output, hscan] at hok
      exact absurd hok (by simp)
    | cons primary rest =>
      rw [parse_hspice_dc_output, hscan] at hok
      have hrows : rows = (mergeSections (1 / 10 ^ 12) (primary :: rest)).2 := by
        have hp := (Except.ok.injEq _ _).mp hok
        exact (Prod.mk.injEq _ _ _ _).mp hp.symm |>.2
      have hprim : primary.data ≠ [] := by
        have hmem : primary ∈ scanSectionsDC lines := by rw [hscan]; simp
        exact scanFuel_data_ne_nil headerMatchDC buildColumnsDC (lines.length + 1) lines
          primary hmem
      intro hnil
      apply hprim
      have hlen := mergeSections_snd_length (1 / 10 ^ 12) primary rest
      rw [← hrows, hnil] at hlen
      exact List.length_eq_zero.mp hlen.symm
  · simp +decide [parse_hspice_dc_output, scanSectionsDC, scanFuel, collectRows, parseRow,
      splitWS, splitWSAux, strip, trimWS, dropWS, isWS, data_asString, toList_asString]

/-- C5 (witness): the no-header part and the nonempty-rows part applied at
concrete reports. -/
theorem c5_no_data_error_wit :
    parse_hspice_dc_output [("hello world")] =
      Except.error ("Could not find any data sections in HSPICE output") ∧
    ([[PyFloat.num 1, PyFloat.num 2]] : List (List PyFloat)) ≠ [] := by
  constructor
  · exact c5_no_data_error.1 [("hello world")] (by decide)
  · refine c5_no_data_error.2.1 [("volt current"), ("ng vd"), ("1.0 2.0")]
      [("v(ng)"), ("i(vd)")] [[PyFloat.num 1, PyFloat.num 2]] ?_
    simp +decide [parse_hspice_dc_output, scanSectionsDC, scanFuel, collectRows, parseRow,
      List.mapM, List.mapM.loop, splitWS, splitWSAux, strip, buildColumnsDC, buildColsAux,
      typedNameDC, parse_hspice_value, parseMagnitude, pyFloat?, pySign, pyFrac, pyExpo?,
      SUFFIXES, trimWS, dropWS, isWS, takeDigits, digitsVal, List.getLast?, List.dropLast,
      data_asString, toList_asString, List.foldl, cleanupColumns, mergeSections, mergeStep,
      extendRows, mergeRow, lookupFind, findWithin, buildLookup, dictInsert, List.headI,
      tl0, tl1, tl2, dg0, dg1, dg2, dgDot]

/-! ## Claim C6 -/

/-- One-step unfolding of the data-row loop on a nonempty list
(definitional). -/
theorem collectRows_cons (line : String) (rest : List String) :
    collectRows (line :: rest) =
      (if strip line = ("") then collectRows rest
       else if isTerminator (strip line) then ([], line :: rest)
       else if hasJob (strip line) then ([], line :: rest)
       else if !startsDataRow (strip line) then ([], line :: rest)
       else
         match parseRow (strip line) with
         | some row =>
           match collectRows rest with
           | (rs, rem) => (row :: rs, rem)
         | none => collectRows rest) := rfl

/-- C6: the empty token decodes to "no value" (`none`, distinct from any
number, in particular from zero), and a data line in which any
whitespace-delimited token fails to decode is dropped whole — it contributes
nothing to the collected rows and scanning continues with the next line. -/
theorem c6_row_drop :
    parse_hspice_value ("") = none ∧
    (∀ (line : String) (rest : List String),
      strip line ≠ ("") →
      isTerminator (strip line) = false →
      hasJob (strip line) = false →
      startsDataRow (strip line) = true →
      (∃ t ∈ splitWS (strip line), parse_hspice_value t = none) →
      collectRows (line :: rest) = collectRows rest) := by
  refine ⟨by decide, ?_⟩
  rintro line rest h1 h2 h3 h4 ⟨t, ht, hnone⟩
  have hrow : parseRow (strip line) = none :=
    mapM_eq_none parse_hspice_value (splitWS (strip line)) t ht hnone
  rw [collectRows_cons, if_neg h1, if_neg (by simp [h2]), if_neg (by simp [h3]),
    if_neg (by simp [h4]), hrow]

/-- C6 (witness): the line `0.0 abc` (second token undecodable) is dropped
and the scan continues with the following line. -/
theorem c6_row_drop_wit :
    collectRows [("0.0 abc"), ("1.0 2.0")] = collectRows [("1.0 2.0")] ∧
    parse_hspice_value ("") = none := by
  refine ⟨?_, c6_row_drop.1⟩
  exact c6_row_drop.2 ("0.0 abc") [("1.0 2.0")] (by decide) (by decide) (by decide) (by decide)
    ⟨("abc"), by decide, by decide⟩


/-! ## Claim C7 -/

/-- Membership in a dict after an insertion. -/
theorem mem_dictInsert (k : ℚ) (v : List ℚ) :
    ∀ (lk : List (ℚ × List ℚ)) (kv : ℚ × List ℚ),
      kv ∈ dictInsert k v lk → kv.2 = v ∨ kv ∈ lk := by
  intro lk
  induction lk with
  | nil =>
    intro kv hkv
    simp [dictInsert] at hkv
    exact Or.inl (by rw [hkv])
  | cons p rest ih =>
    intro kv hkv
    obtain ⟨k', v'⟩ := p
    unfold dictInsert at hkv
    by_cases hk : k' = k
    · rw [if_pos hk] at hkv
      rcases List.mem_cons.mp hkv with h | h
      · exact Or.inl (by rw [h])
      · exact Or.inr (by simp [h])
    · rw [if_neg hk] at hkv
      rcases List.mem_cons.mp hkv with h | h
      · exact Or.inr (by simp [h])
      · rcases ih kv h with h2 | h2
        · exact Or.inl h2
        · exact Or.inr (by simp [h2])

/-- Every value stored in a section's lookup is a row tail, hence one
shorter than the section's rows. -/
theorem buildLookup_snd_length (n : ℕ) (rows : List (List ℚ))
    (hw : ∀ r ∈ rows, r.length = n) :
    ∀ kv ∈ buildLookup rows, kv.2.length = n - 1 := by
  unfold buildLookup
  refine foldl_invariant (fun lk => ∀ kv ∈ lk, kv.2.length = n - 1)
    (fun acc row => dictInsert row.headI row.tail acc) rows [] (by simp) ?_
  intro acc hacc row hrow kv hkv
  rcases mem_dictInsert row.headI row.tail acc kv hkv with h | h
  · rw [h, List.length_tail, hw row hrow]
  · exact hacc kv h

/-- An exact lookup hit returns a stored value. -/
theorem lookupFind_mem (key : ℚ) :
    ∀ (lk : List (ℚ × List ℚ)) (v : List ℚ), lookupFind key lk = some v → ∃ k, (k, v) ∈ lk := by
  intro lk
  induction lk with
  | nil => intro v hv; simp [lookupFind] at hv
  | cons p rest ih =>
    intro v hv
    obtain ⟨k', v'⟩ := p
    unfold lookupFind at hv
    by_cases hk : k' = key
    · rw [if_pos hk] at hv
      exact ⟨k', by simp [← Option.some.injEq _ _ |>.mp hv]⟩
    · rw [if_neg hk] at hv
      obtain ⟨k0, hk0⟩ := ih v hv
      exact ⟨k0, by simp [hk0]⟩

/-- A tolerance hit returns a stored value. -/
theorem findWithin_mem (tol key : ℚ) :
    ∀ (lk : List (ℚ × List ℚ)) (v : List ℚ), findWithin tol key lk = some v → ∃ k, (k, v) ∈ lk := by
  intro lk
  induction lk with
  | nil => intro v hv; simp [findWithin] at hv
  | cons p rest ih =>
    intro v hv
    obtain ⟨k', v'⟩ := p
    unfold findWithin at hv
    by_cases hk : |k' - key| < tol
    · rw [if_pos hk] at hv
      exact ⟨k', by simp [← Option.some.injEq _ _ |>.mp hv]⟩
    · rw [if_neg hk] at hv
      obtain ⟨k0, hk0⟩ := ih v hv
      exact ⟨k0, by simp [hk0]⟩

/-- Whatever branch fires, a merge cell block has one entry per non-index
column of the subordinate section. -/
theorem mergeRow_length (tol : ℚ) (lk : List (ℚ × List ℚ)) (n : ℕ) (key : ℚ)
    (hlk : ∀ kv ∈ lk, kv.2.length = n - 1) :
    (mergeRow tol lk n key).length = n - 1 := by
  unfold mergeRow
  rcases hex : lookupFind key lk with _ | v
  · rcases htl : findWithin tol key lk with _ | v
    · simp
    · obtain ⟨k0, hk0⟩ := findWithin_mem tol key lk v htl
      simpa using hlk (k0, v) hk0
  · obtain ⟨k0, hk0⟩ := lookupFind_mem key lk v hex
    simpa using hlk (k0, v) hk0

/-- The clean-up step keeps the column count. -/
theorem cleanupColumns_length (cs : List String) : (cleanupColumns cs).length = cs.length := by
  unfold cleanupColumns
  split <;> simp

/-- C7 (counterexample): the extractor never checks a data row's width
against the header: the report `volt current / ng vd / 0.0 1.0 2.0` is
extracted successfully, yet its single row has 3 cells under 2 columns, so
the claimed invariant fails. -/
theorem c7_row_width_cex :
    parse_hspice_dc_output [("volt current"), ("ng vd"), ("0.0 1.0 2.0")] =
      Except.ok ([("v(ng)"), ("i(vd)")],
        [[PyFloat.num 0, PyFloat.num 1, PyFloat.num 2]]) ∧
    ([PyFloat.num 0, PyFloat.num 1, PyFloat.num 2] : List PyFloat).length ≠
      ([("v(ng)"), ("i(vd)")] : List String).length := by
  refine ⟨?_, by decide⟩
  simp +decide [parse_hspice_dc_output, scanSectionsDC, scanFuel, collectRows, parseRow,
    List.mapM, List.mapM.loop, splitWS, splitWSAux, strip, buildColumnsDC, buildColsAux,
    typedNameDC, parse_hspice_value, parseMagnitude, pyFloat?, pySign, pyFrac, pyExpo?,
    SUFFIXES, trimWS, dropWS, isWS, takeDigits, digitsVal, List.getLast?, List.dropLast,
    data_asString, toList_asString, List.foldl, cleanupColumns, mergeSections, mergeStep,
    extendRows, mergeRow, lookupFind, findWithin, buildLookup, dictInsert, List.headI,
    tl0, tl1, tl2, dg0, dg1, dg2, dgDot]

/-- C7 (amended): *provided every scanned section's data rows are as wide as
its column list* (true of well-formed reports, but not checked by the code),
every row of the merged table is exactly as long as the merged column list,
including rows extended by matches and rows padded with not-a-number
filler. -/
theorem c7_row_width_invariant (lines cols : List String) (rows : List (List PyFloat))
    (hok : parse_hspice_dc_output lines = Except.ok (cols, rows))
    (hw : ∀ s ∈ scanSectionsDC lines, ∀ r ∈ s.data, r.length = s.columns.length) :
    ∀ r ∈ rows, r.length = cols.length := by
  cases hscan : scanSectionsDC lines with
  | nil =>
    rw [parse_hspice_dc_output, hscan] at hok
    exact absurd hok (by simp)
  | cons primary rest =>
    rw [parse_hspice_dc_output, hscan] at hok
    have hp := (Prod.mk.injEq _ _ _ _).mp ((Except.ok.injEq _ _).mp hok)
    have hcols : cols = cleanupColumns (mergeSections (1 / 10 ^ 12) (primary :: rest)).1 :=
      hp.1.symm
    have hrows : rows = (mergeSections (1 / 10 ^ 12) (primary :: rest)).2 := hp.2.symm
    have hwf : ∀ s ∈ primary :: rest, ∀ r ∈ s.data, r.length = s.columns.length := by
      rw [← hscan]; exact hw
    have hmain : (∀ r ∈ (mergeSections (1 / 10 ^ 12) (primary :: rest)).2,
        r.length = (mergeSections (1 / 10 ^ 12) (primary :: rest)).1.length) := by
      have hinv := foldl_invariant
        (fun acc : List String × List (List PyFloat) =>
          (∀ r ∈ acc.2, r.length = acc.1.length) ∧ acc.2.length = primary.data.length)
        (mergeStep (1 / 10 ^ 12) (primary.data.map List.headI)) rest
        (primary.columns, primary.data.map (fun r => r.map PyFloat.num))
        ⟨by
          intro r hr
          obtain ⟨r0, hr0, hmap⟩ := List.mem_map.mp hr
          rw [← hmap]
          simpa using hwf primary (by simp) r0 hr0,
         by simp⟩
        ?_
      · intro r hr
        unfold mergeSections
        exact (hinv.1 r (by rw [mergeSections] at hr; exact hr))
      · intro acc hacc sect hsect
        constructor
        · intro r' hr'
          obtain ⟨r, hr, sv, hsv⟩ := extendRows_mem (1 / 10 ^ 12) (buildLookup sect.data)
            sect.columns.length (primary.data.map List.headI) acc.2
            (by rw [hacc.2]; simp) r' hr'
          have hlk := buildLookup_snd_length sect.columns.length sect.data
            (hwf sect (by simp [hsect]))
          rw [hsv]
          simp only [List.length_append, mergeStep]
          rw [hacc.1 r hr,
            mergeRow_length (1 / 10 ^ 12) (buildLookup sect.data) sect.columns.length sv hlk]
          simp [List.length_tail]
        · simpa [mergeStep, extendRows_length] using hacc.2
    intro r hr
    rw [hcols, cleanupColumns_length, hrows] at *
    exact hmain r hr

/-- C7 (witness): the amended invariant at a concrete well-formed report. -/
theorem c7_row_width_invariant_wit :
    ([PyFloat.num 1, PyFloat.num 2] : List PyFloat).length =
      ([("v(ng)"), ("i(vd)")] : List String).length := by
  refine c7_row_width_invariant [("volt current"), ("ng vd"), ("1.0 2.0")]
    [("v(ng)"), ("i(vd)")] [[PyFloat.num 1, PyFloat.num 2]] ?_ ?_
    [PyFloat.num 1, PyFloat.num 2] (by simp)
  · simp +decide [parse_hspice_dc_output, scanSectionsDC, scanFuel, collectRows, parseRow,
      List.mapM, List.mapM.loop, splitWS, splitWSAux, strip, buildColumnsDC, buildColsAux,
      typedNameDC, parse_hspice_value, parseMagnitude, pyFloat?, pySign, pyFrac, pyExpo?,
      SUFFIXES, trimWS, dropWS, isWS, takeDigits, digitsVal, List.getLast?, List.dropLast,
      data_asString, toList_asString, List.foldl, cleanupColumns, mergeSections, mergeStep,
      extendRows, mergeRow, lookupFind, findWithin, buildLookup, dictInsert, List.headI,
      tl0, tl1, tl2, dg0, dg1, dg2, dgDot]
  · simp +decide [scanSectionsDC, scanFuel, collectRows, parseRow,
      List.mapM, List.mapM.loop, splitWS, splitWSAux, strip, buildColumnsDC, buildColsAux,
      typedNameDC, parse_hspice_value, parseMagnitude, pyFloat?, pySign, pyFrac, pyExpo?,
      SUFFIXES, trimWS, dropWS, isWS, takeDigits, digitsVal, List.getLast?, List.dropLast,
      data_asString, toList_asString, tl0, tl1, tl2, dg0, dg1, dg2, dgDot]


/-! ## Claim C8 -/

/-- C8 (counterexample): on the claimed two-section report, the merged rows
are as predicted, but the column list is `[v(ng), i(vd)]` only — `i(vs)`
never appears.  Section 2's header is the single token `current` and its
sub-header `vs` has the same token count, so no index shift happens: the
section gets the single column `i(vs)`, and the merger appends
`columns[1:]`, which is empty, while still appending the data values. -/
theorem c8_two_section_cex :
    parse_hspice_dc_output
        [("volt current"), ("ng vd"), ("0.0 1.0e-9"), ("0.1 2.0e-9"),
         ("current"), ("vs"), ("0.0 3.0e-9"), ("0.1 4.0e-9")] =
      Except.ok ([("v(ng)"), ("i(vd)")],
        [[PyFloat.num 0, PyFloat.num (1 / 10 ^ 9), PyFloat.num (3 / 10 ^ 9)],
         [PyFloat.num (1 / 10), PyFloat.num (2 / 10 ^ 9), PyFloat.num (4 / 10 ^ 9)]]) ∧
    ("i(vs)") ∉ [("v(ng)"), ("i(vd)")] := by
  refine ⟨?_, by decide⟩
  simp +decide [parse_hspice_dc_output, scanSectionsDC, scanFuel, collectRows, parseRow,
    List.mapM, List.mapM.loop, splitWS, splitWSAux, strip, buildColumnsDC, buildColsAux,
    typedNameDC, parse_hspice_value, parseMagnitude, pyFloat?, pySign, pyFrac, pyExpo?,
    SUFFIXES, trimWS, dropWS, isWS, takeDigits, digitsVal, List.getLast?, List.dropLast,
    data_asString, toList_asString, List.foldl, cleanupColumns, mergeSections, mergeStep,
    extendRows, mergeRow, lookupFind, findWithin, buildLookup, dictInsert, List.headI,
    tl0, tl1, tl2, tl3, tl4, tl9, tlDot, tlMinus, tlE, dg0, dg1, dg2, dg3, dg4, dg9,
    dgDot, dgE, dgMinus]
  norm_num [mergeRow, lookupFind, findWithin, abs_of_pos, abs_of_nonneg]

/-- C8 (amended): the merged table for that report has columns
`[v(ng), i(vd)]` (section 2's lone column name is treated as its index
column and skipped) and rows `[(0.0, 1e-9, 3e-9), (0.1, 2e-9, 4e-9)]` —
the claimed values land in rows that are wider than the column list. -/
theorem c8_two_section_merge :
    parse_hspice_dc_output
        [("volt current"), ("ng vd"), ("0.0 1.0e-9"), ("0.1 2.0e-9"),
         ("current"), ("vs"), ("0.0 3.0e-9"), ("0.1 4.0e-9")] =
      Except.ok ([("v(ng)"), ("i(vd)")],
        [[PyFloat.num 0, PyFloat.num (1 / 10 ^ 9), PyFloat.num (3 / 10 ^ 9)],
         [PyFloat.num (1 / 10), PyFloat.num (2 / 10 ^ 9), PyFloat.num (4 / 10 ^ 9)]]) := by
  simp +decide [parse_hspice_dc_output, scanSectionsDC, scanFuel, collectRows, parseRow,
    List.mapM, List.mapM.loop, splitWS, splitWSAux, strip, buildColumnsDC, buildColsAux,
    typedNameDC, parse_hspice_value, parseMagnitude, pyFloat?, pySign, pyFrac, pyExpo?,
    SUFFIXES, trimWS, dropWS, isWS, takeDigits, digitsVal, List.getLast?, List.dropLast,
    data_asString, toList_asString, List.foldl, cleanupColumns, mergeSections, mergeStep,
    extendRows, mergeRow, lookupFind, findWithin, buildLookup, dictInsert, List.headI,
    tl0, tl1, tl2, tl3, tl4, tl9, tlDot, tlMinus, tlE, dg0, dg1, dg2, dg3, dg4, dg9,
    dgDot, dgE, dgMinus]
  norm_num [mergeRow, lookupFind, findWithin, abs_of_pos, abs_of_nonneg]

/-! ## Claim C9 -/

/-- C9 (code bug): `write_csv` joins cells with commas, but `load_csv`
splits on whitespace only.  Serializing the table
`([v(ng), i(vd)], [[0.0, 2.0]])` and re-loading the written text yields a
single concatenated column name and *zero* data rows (every data line fails
`float` on the comma-joined token and is skipped), so the documented
round-trip reproduces neither the column list nor any row. -/
theorem c9_delimiter_mismatch :
    write_csv [("v(ng)"), ("i(vd)")] [[PyFloat.num 0, PyFloat.num 2]] =
      [("v(ng),i(vd)"), ("0.0000000000e+00,2.0000000000e+00")] ∧
    load_csv [("v(ng),i(vd)"), ("0.0000000000e+00,2.0000000000e+00")] =
      ([("v(ng),i(vd)")], []) ∧
    ([("v(ng),i(vd)")] : List String) ≠ [("v(ng)"), ("i(vd)")] := by
  refine ⟨?_, ?_, by decide⟩
  · have hz : fmt10e (PyFloat.num 0) = ("0.0000000000e+00") := by norm_num [fmt10e]
    have h2 : fmt10e (PyFloat.num 2) = ("2.0000000000e+00") := by
      have hm : mantStr 20000000000 = ("2.0000000000") := by decide
      have hp : padExp 0 = ("+00") := by decide
      have ht : Int.toNat 2 = 2 := by decide
      have hb : Int.toNat 20000000000 = 20000000000 := by decide
      have hn2 : natLen 2 = 1 := by decide
      have hn1 : natLen 1 = 1 := by decide
      norm_num [fmt10e, decExp, hm, hp, ht, hb, hn1, hn2, abs_of_pos]
      decide
    simp only [write_csv, List.map_cons, List.map_nil, hz, h2]
    decide
  · simp +decide [load_csv, findHdrAux, strip, trimWS, dropWS, isWS, splitWS, splitWSAux,
      replaceDash, dedupe, seenUpd, data_asString, toList_asString, List.mapM, List.mapM.loop,
      pyFloat?, pySign, pyFrac, pyExpo?, takeDigits, digitsVal, startsHash, startsNumDot,
      dg0, dg2, dgDot, dgE, dgPlus]


/-! ## Claim C4 -/

/-- The character of a decimal digit. -/
def digitChar (d : ℕ) : Char := Char.ofNat (48 + d)

/-- A well-formed engineering-notation token: optional sign, integer digits,
point, fraction digits, suffix letter. -/
def mkToken (neg : Bool) (ds fs : List ℕ) (c : Char) : String :=
  String.mk ((if neg then ['-'] else []) ++
    (((ds.map digitChar ++ ['.']) ++ fs.map digitChar) ++ [c]))

theorem digitChar_not_ws (d : ℕ) (hd : d < 10) : isWS (digitChar d) = false := by
  interval_cases d <;> decide

theorem digitChar_toLower (d : ℕ) (hd : d < 10) : Char.toLower (digitChar d) = digitChar d := by
  interval_cases d <;> decide

theorem digit?_digitChar (d : ℕ) (hd : d < 10) : digit? (digitChar d) = some d := by
  interval_cases d <;> decide

/-- A suffix letter is lowercase, non-whitespace, and not a digit. -/
theorem SUFFIXES_char (c : Char) (mag : ℚ) (h : SUFFIXES c = some mag) :
    isWS c = false ∧ Char.toLower c = c ∧ digit? c = none := by
  unfold SUFFIXES at h
  by_cases h0 : c = 'a'
  · subst h0; exact ⟨by decide, by decide, by decide⟩
  rw [if_neg h0] at h
  by_cases h1 : c = 'f'
  · subst h1; exact ⟨by decide, by decide, by decide⟩
  rw [if_neg h1] at h
  by_cases h2 : c = 'p'
  · subst h2; exact ⟨by decide, by decide, by decide⟩
  rw [if_neg h2] at h
  by_cases h3 : c = 'n'
  · subst h3; exact ⟨by decide, by decide, by decide⟩
  rw [if_neg h3] at h
  by_cases h4 : c = 'u'
  · subst h4; exact ⟨by decide, by decide, by decide⟩
  rw [if_neg h4] at h
  by_cases h5 : c = 'm'
  · subst h5; exact ⟨by decide, by decide, by decide⟩
  rw [if_neg h5] at h
  by_cases h6 : c = 'k'
  · subst h6; exact ⟨by decide, by decide, by decide⟩
  rw [if_neg h6] at h
  by_cases h7 : c = 'x'
  · subst h7; exact ⟨by decide, by decide, by decide⟩
  rw [if_neg h7] at h
  by_cases h8 : c = 'g'
  · subst h8; exact ⟨by decide, by decide, by decide⟩
  rw [if_neg h8] at h
  by_cases h9 : c = 't'
  · subst h9; exact ⟨by decide, by decide, by decide⟩
  rw [if_neg h9] at h
  exact absurd h (by simp)

theorem dropWhile_eq_self_of {α : Type} (p : α → Bool) (l : List α)
    (h : ∀ c ∈ l, p c = false) : l.dropWhile p = l := by
  cases l with
  | nil => rfl
  | cons a t =>
    rw [List.dropWhile_cons, h a (by simp)]
    simp

theorem trimWS_eq_self (l : List Char) (h : ∀ c ∈ l, isWS c = false) : trimWS l = l := by
  unfold trimWS dropWS
  rw [dropWhile_eq_self_of _ l.reverse (fun c hc => h c (List.mem_reverse.mp hc)),
    List.reverse_reverse, dropWhile_eq_self_of _ l h]

theorem map_toLower_self (l : List Char) (h : ∀ c ∈ l, Char.toLower c = c) :
    l.map Char.toLower = l := by
  induction l with
  | nil => rfl
  | cons a t ih =>
    rw [List.map_cons, h a (by simp), ih (fun c hc => h c (by simp [hc]))]

/-- Greedy digit taking consumes exactly the mapped digit block. -/
theorem takeDigits_map (ds : List ℕ) (hds : ∀ d ∈ ds, d < 10) (rest : List Char)
    (hrest : ∀ c r, rest = c :: r → digit? c = none) :
    takeDigits (ds.map digitChar ++ rest) = (ds, rest) := by
  induction ds with
  | nil =>
    cases rest with
    | nil => rfl
    | cons c r =>
      show takeDigits (c :: r) = ([], c :: r)
      unfold takeDigits
      rw [hrest c r rfl]
  | cons d ds ih =>
    show takeDigits (digitChar d :: (ds.map digitChar ++ rest)) = (d :: ds, rest)
    unfold takeDigits
    rw [digit?_digitChar d (hds d (by simp)),
      ih (fun d' hd' => hds d' (by simp [hd'])) ]

/-- The sign scan leaves digit-headed input untouched with sign `+1`. -/
theorem pySign_digit (d : ℕ) (hd : d < 10) (r : List Char) :
    pySign (digitChar d :: r) = (1, digitChar d :: r) := by
  interval_cases d <;> rfl

/-- Fact: `float` on `<digits>.<digits>` is the exact decimal value. -/
theorem pyFloat?_mant (ds fs : List ℕ) (hds : ds ≠ []) (h1 : ∀ d ∈ ds, d < 10)
    (h2 : ∀ d ∈ fs, d < 10) :
    pyFloat? ((ds.map digitChar ++ ['.']) ++ fs.map digitChar) =
      some ((digitsVal ds : ℚ) + (digitsVal fs : ℚ) / 10 ^ fs.length) := by
  have hnws : ∀ ch ∈ (ds.map digitChar ++ ['.']) ++ fs.map digitChar, isWS ch = false := by
    intro ch hch
    simp only [List.mem_append, List.mem_map, List.mem_singleton] at hch
    rcases hch with (⟨d, hd, rfl⟩ | rfl) | ⟨d, hd, rfl⟩
    · exact digitChar_not_ws d (h1 d hd)
    · decide
    · exact digitChar_not_ws d (h2 d hd)
  obtain ⟨d0, ds', rfl⟩ : ∃ d0 ds', ds = d0 :: ds' := by
    cases ds with
    | nil => exact absurd rfl hds
    | cons a t => exact ⟨a, t, rfl⟩
  have hshape : ((d0 :: ds').map digitChar ++ ['.']) ++ fs.map digitChar =
      digitChar d0 :: ((ds'.map digitChar ++ ['.']) ++ fs.map digitChar) := by
    simp
  unfold pyFloat?
  rw [trimWS_eq_self _ hnws, hshape, pySign_digit d0 (h1 d0 (by simp))]
  have htd : takeDigits (digitChar d0 :: ((ds'.map digitChar ++ ['.']) ++ fs.map digitChar)) =
      (d0 :: ds', '.' :: fs.map digitChar) := by
    have := takeDigits_map (d0 :: ds') h1 ('.' :: fs.map digitChar)
      (fun c r hcr => by rw [← ((List.cons.injEq _ _ _ _).mp hcr).1]; decide)
    simpa using this
  dsimp only
  rw [htd]
  dsimp only
  have hfr : pyFrac ('.' :: fs.map digitChar) = (fs, []) := by
    show takeDigits (fs.map digitChar) = (fs, [])
    have := takeDigits_map fs h2 [] (fun c r hcr => by simp at hcr)
    simpa using this
  rw [hfr]
  dsimp only
  rw [if_neg (by simp)]
  show some (1 * ((digitsVal (d0 :: ds') : ℚ) + (digitsVal fs : ℚ) / 10 ^ fs.length) *
      (10 : ℚ) ^ ((1 : ℤ) * 0)) = _
  norm_num

/-- The suffix dispatch on a suffixed token strips it and rescales. -/
theorem parseMagnitude_suffix (l : List Char) (c : Char) (mag : ℚ)
    (h : SUFFIXES c = some mag) :
    parseMagnitude (l ++ [c]) = (pyFloat? l).map (· * mag) := by
  unfold parseMagnitude
  rw [List.getLast?_concat]
  dsimp only
  rw [h]
  dsimp only
  rw [List.dropLast_concat]


/-- A token whose normalized form starts with a digit takes the unsigned
path. -/
theorem parse_value_digit_head (s : String) (d : ℕ) (hd : d < 10) (r : List Char)
    (hs : (trimWS s.toList).map Char.toLower = digitChar d :: r) :
    parse_hspice_value s = parseMagnitude (digitChar d :: r) := by
  unfold parse_hspice_value
  rw [hs]
  interval_cases d <;> rfl

/-- A token whose normalized form starts with `-` takes the negated path. -/
theorem parse_value_neg_head (s : String) (r : List Char)
    (hs : (trimWS s.toList).map Char.toLower = '-' :: r) :
    parse_hspice_value s = (parseMagnitude r).map (fun v => -v) := by
  unfold parse_hspice_value
  rw [hs]
  rfl

/-- C4: for every token `[-]<digits>.<digits><suffix>` with the suffix drawn
from the fixed alphabet, the decoder returns exactly sign × mantissa ×
magnitude (in exact rational arithmetic, hence agreeing to all — in
particular at least 9 — significant digits), and the magnitude table is
`{a: 1e-18, f: 1e-15, p: 1e-12, n: 1e-9, u: 1e-6, m: 1e-3, k: 1e3, x: 1e6,
g: 1e9, t: 1e12}`. -/
theorem c4_decoder :
    (∀ (neg : Bool) (ds fs : List ℕ) (c : Char) (mag : ℚ),
      ds ≠ [] → (∀ d ∈ ds, d < 10) → (∀ d ∈ fs, d < 10) → SUFFIXES c = some mag →
      parse_hspice_value (mkToken neg ds fs c) =
        some ((if neg then (-1 : ℚ) else 1) *
          ((digitsVal ds : ℚ) + (digitsVal fs : ℚ) / 10 ^ fs.length) * mag)) ∧
    SUFFIXES 'a' = some (1 / 10 ^ 18) ∧ SUFFIXES 'f' = some (1 / 10 ^ 15) ∧
    SUFFIXES 'p' = some (1 / 10 ^ 12) ∧ SUFFIXES 'n' = some (1 / 10 ^ 9) ∧
    SUFFIXES 'u' = some (1 / 10 ^ 6) ∧ SUFFIXES 'm' = some (1 / 10 ^ 3) ∧
    SUFFIXES 'k' = some (10 ^ 3) ∧ SUFFIXES 'x' = some (10 ^ 6) ∧
    SUFFIXES 'g' = some (10 ^ 9) ∧ SUFFIXES 't' = some (10 ^ 12) := by
  refine ⟨?_, rfl, rfl, rfl, rfl, rfl, rfl, rfl, rfl, rfl, rfl⟩
  intro neg ds fs c mag hds h1 h2 hc
  obtain ⟨hcw, hcl, hcd⟩ := SUFFIXES_char c mag hc
  have hnwsM : ∀ ch ∈ ((ds.map digitChar ++ ['.']) ++ fs.map digitChar) ++ [c],
      isWS ch = false := by
    intro ch hch
    simp only [List.mem_append, List.mem_map, List.mem_singleton] at hch
    rcases hch with ((⟨d, hd, rfl⟩ | rfl) | ⟨d, hd, rfl⟩) | rfl
    · exact digitChar_not_ws d (h1 d hd)
    · decide
    · exact digitChar_not_ws d (h2 d hd)
    · exact hcw
  have hlowM : ∀ ch ∈ ((ds.map digitChar ++ ['.']) ++ fs.map digitChar) ++ [c],
      Char.toLower ch = ch := by
    intro ch hch
    simp only [List.mem_append, List.mem_map, List.mem_singleton] at hch
    rcases hch with ((⟨d, hd, rfl⟩ | rfl) | ⟨d, hd, rfl⟩) | rfl
    · exact digitChar_toLower d (h1 d hd)
    · decide
    · exact digitChar_toLower d (h2 d hd)
    · exact hcl
  have hmag : parseMagnitude (((ds.map digitChar ++ ['.']) ++ fs.map digitChar) ++ [c]) =
      some (((digitsVal ds : ℚ) + (digitsVal fs : ℚ) / 10 ^ fs.length) * mag) := by
    rw [parseMagnitude_suffix _ c mag hc, pyFloat?_mant ds fs hds h1 h2]
    rfl
  cases neg with
  | true =>
    have hs : (trimWS (mkToken true ds fs c).toList).map Char.toLower =
        '-' :: (((ds.map digitChar ++ ['.']) ++ fs.map digitChar) ++ [c]) := by
      show (trimWS ('-' :: (((ds.map digitChar ++ ['.']) ++ fs.map digitChar) ++ [c]))).map
        Char.toLower = _
      rw [trimWS_eq_self, map_toLower_self]
      · intro ch hch
        rcases List.mem_cons.mp hch with rfl | hch
        · decide
        · exact hlowM ch hch
      · intro ch hch
        rcases List.mem_cons.mp hch with rfl | hch
        · decide
        · exact hnwsM ch hch
    rw [parse_value_neg_head _ _ hs, hmag]
    simp
    try ring
  | false =>
    obtain ⟨d0, ds', rfl⟩ : ∃ d0 ds', ds = d0 :: ds' := by
      cases ds with
      | nil => exact absurd rfl hds
      | cons a t => exact ⟨a, t, rfl⟩
    have hshape : ((((d0 :: ds').map digitChar ++ ['.']) ++ fs.map digitChar) ++ [c] :
        List Char) =
        digitChar d0 :: (((ds'.map digitChar ++ ['.']) ++ fs.map digitChar) ++ [c]) := by
      simp
    have hs : (trimWS (mkToken false (d0 :: ds') fs c).toList).map Char.toLower =
        digitChar d0 :: (((ds'.map digitChar ++ ['.']) ++ fs.map digitChar) ++ [c]) := by
      show (trimWS ((((d0 :: ds').map digitChar ++ ['.']) ++ fs.map digitChar) ++ [c])).map
        Char.toLower = _
      rw [trimWS_eq_self _ hnwsM, map_toLower_self _ hlowM, hshape]
    rw [parse_value_digit_head _ d0 (h1 d0 (by simp)) _ hs, ← hshape, hmag]
    congr 1
    simp

/-- C4 (witness): the claim's two concrete decodes, obtained from the
general theorem. -/
theorem c4_decoder_wit :
    parse_hspice_value ("-137.2197n") = some (-(1372197 / 10 ^ 13)) ∧
    parse_hspice_value ("1.00000k") = some 1000 := by
  constructor
  · have h := c4_decoder.1 true [1, 3, 7] [2, 1, 9, 7] 'n' (1 / 10 ^ 9)
      (by simp) (by decide) (by decide) rfl
    have hm : mkToken true [1, 3, 7] [2, 1, 9, 7] 'n' = ("-137.2197n") := by decide
    rw [hm] at h
    rw [h]
    norm_num [digitsVal, List.foldl]
  · have h := c4_decoder.1 false [1] [0, 0, 0, 0, 0] 'k' (10 ^ 3)
      (by simp) (by decide) (by decide) rfl
    have hm : mkToken false [1] [0, 0, 0, 0, 0] 'k' = ("1.00000k") := by decide
    rw [hm] at h
    rw [h]
    norm_num [digitsVal, List.foldl]

end SpiceSupport
